import Mathlib

set_option maxHeartbeats 1000000
set_option maxRecDepth 8192

/-!
Shallow embedding of the RADIUS client engine implemented in
trunk/user/msd_lite/msd_lite-db58338/src/liblcb/src/proto/radius_client.c.

Machine integers (uint64_t, size_t, uint8_t) are modelled as Nat with an
explicit reduction modulo 2 ^ 64 wherever wrap around matters.  External
collaborators of the engine (the RADIUS packet codec, the socket layer and
the thread-pool runtime) are passed in as opaque parameters, matching the
call structure of the C code, which consumes them through function calls.
-/

namespace RadiusClient

/-- Modulus of uint64_t and size_t arithmetic. -/
def W : Nat := 18446744073709551616

/-- uint64_t subtraction with wrap around. -/
def subW (a b : Nat) : Nat := (a % W + (W - b % W)) % W

/-- uint64_t negation with wrap around. -/
def negW (a : Nat) : Nat := (W - a % W) % W

/-- errno values as on Linux. -/
def EAGAIN : Nat := 11

def EINVAL : Nat := 22

def EDESTADDRREQ : Nat := 89

def ETIMEDOUT : Nat := 110

def ECONNREFUSED : Nat := 111

/-! ## Jitter (radius_client_rnd_factor, lines 316-335) -/

/-- Low seven bits of the CRC-derived byte tm after the divide-by-zero guard
in radius_client_rnd_factor (lines 326-328): when the low seven bits of tm
are zero, tm is incremented once, so the divisor is never zero.  The
increment cannot carry into bit 7 because the low seven bits are zero. -/
def rnd_divisor (k : Nat) : Nat := (if k % 128 = 0 then k + 1 else k) % 128

/-- Bit 0x80 of tm after the divide-by-zero guard (line 331). -/
def rnd_negbit (k : Nat) : Bool := Nat.testBit (if k % 128 = 0 then k + 1 else k) 7

/-- radius_client_rnd_factor (lines 316-335), with the CRC of the monotonic
timestamp XORed with the data abstracted into the byte k: the factor is
data / (tm and 0x7f), negated in uint64_t arithmetic when bit 0x80 of tm is
set. -/
def radius_client_rnd_factor (k t : Nat) : Nat :=
  if rnd_negbit k then negW (t / rnd_divisor k) else t / rnd_divisor k

/-- The jittered retransmission time t - rnd_factor(t) in uint64_t
arithmetic, as computed at send_new line 893 and at the timeout-handler cap
at line 970. -/
def retrans_time_of (k t : Nat) : Nat := subW t (radius_client_rnd_factor k t)

/-! ## Retransmission state machine (send_new lines 892-901 and
radius_client_query_timeout_cb lines 935-992) -/

/-- Per-server retransmission policy (the policy fields of
radius_cli_srv_settings_t). -/
structure SrvPol where
  retrans_time_init : Nat
  retrans_time_max : Nat
  retrans_duration_max : Nat
  retrans_count_max : Nat
deriving DecidableEq

/-- The retransmission counters of one query (fields retrans_count,
retrans_time and retrans_duration of radius_cli_query_t). -/
structure RQState where
  retrans_count : Nat
  retrans_time : Nat
  retrans_duration : Nat
deriving DecidableEq

/-- Lines 892-901 of radius_client_send_new: generate the jittered initial
retrans_time, cap it to the jittered retrans_time_max when that limit is
set and exceeded, and reset the counters.  k1 and k2 stand for the two
CRC-derived bytes consumed by the two rnd_factor calls. -/
def sendNewRetrans (pol : SrvPol) (k1 k2 : Nat) : RQState :=
  let t1 := subW pol.retrans_time_init (radius_client_rnd_factor k1 pol.retrans_time_init)
  let t2 := if pol.retrans_time_max ≠ 0 ∧ pol.retrans_time_max < t1 then
      subW pol.retrans_time_max (radius_client_rnd_factor k2 pol.retrans_time_max)
    else t1
  ⟨0, t2, 0⟩

/-- The duration accumulated by line 957 of the timeout handler when the
timer fires: the sum of the previously accumulated duration and the
interval just waited, in uint64_t arithmetic. -/
def firedDuration (st : RQState) : Nat := (st.retrans_duration + st.retrans_time) % W

/-- The counter/budget portion of radius_client_query_timeout_cb
(lines 955-978): increment retrans_count, accumulate retrans_duration,
give up (error ETIMEDOUT at err_out) when the retry count or the total
duration budget of the current server is exhausted, otherwise double and
jitter retrans_time, cap it to the jittered retrans_time_max, and clamp it
to the remaining duration budget, giving up when the remainder is smaller
than retrans_time_init. -/
def timeoutBudget (pol : SrvPol) (k1 k2 : Nat) (st : RQState) : Except Nat RQState :=
  let c := (st.retrans_count + 1) % W
  let d := (st.retrans_duration + st.retrans_time) % W
  if pol.retrans_count_max ≠ 0 ∧ pol.retrans_count_max ≤ c then .error ETIMEDOUT
  else if pol.retrans_duration_max ≠ 0 ∧ pol.retrans_duration_max ≤ d then .error ETIMEDOUT
  else
    let t1 := subW ((2 * st.retrans_time) % W) (radius_client_rnd_factor k1 st.retrans_time)
    let t2 := if pol.retrans_time_max ≠ 0 ∧ pol.retrans_time_max < t1 then
        subW pol.retrans_time_max (radius_client_rnd_factor k2 pol.retrans_time_max)
      else t1
    if pol.retrans_duration_max ≠ 0 ∧ pol.retrans_duration_max ≤ (d + t2) % W then
      let t3 := subW pol.retrans_duration_max d
      if t3 < pol.retrans_time_init then .error ETIMEDOUT
      else .ok ⟨c, t3, d⟩
    else .ok ⟨c, t2, d⟩

/-- Iterated timer firings against one server, assuming each re-send
succeeds: ks supplies the CRC-derived bytes consumed at the n-th firing. -/
def iterSteps (pol : SrvPol) (ks : Nat → Nat × Nat) : Nat → RQState → Except Nat RQState
  | 0, st => .ok st
  | n + 1, st =>
    match timeoutBudget pol (ks n).1 (ks n).2 st with
    | .error e => .error e
    | .ok st2 => iterSteps pol ks n st2

/-- Iteration kernel of the try-next-server loop below.  The last argument
counts the loop bound srvCount - idx, which decreases by one whenever idx
increases by one, so the guard idx + 1 < srvCount always fails before the
count runs out and the kernel computes exactly the C while loop. -/
def failoverLoopGo (sendNewRes : Nat → Nat) (srvCount : Nat) : Nat → Nat → Nat → Nat × Nat
  | idx, e, 0 => (idx, e)
  | idx, e, n + 1 =>
    if idx + 1 < srvCount ∧ e ≠ 0 then
      failoverLoopGo sendNewRes srvCount (idx + 1) (sendNewRes (idx + 1)) n
    else (idx, e)

/-- The try-next-server loop at lines 982-987 of the timeout handler:
while another server exists and the last send failed, advance
cur_srv_idx and re-enter send_new; sendNewRes gives the result of
radius_client_send_new for each server index. -/
def failoverLoop (sendNewRes : Nat → Nat) (srvCount idx e : Nat) : Nat × Nat :=
  failoverLoopGo sendNewRes srvCount idx e (srvCount - idx)

/-- Control flow of radius_client_query_timeout_cb (lines 935-992).
Returns the final cur_srv_idx together with some e when the handler calls
radius_client_query_done with error e (completing the query), or none when
the query stays armed.  sendRes is the result of the radius_client_send
re-send to the current server; sendNewRes gives the result of
radius_client_send_new per server index.  The goto err_out taken on an
exhausted budget jumps PAST the try-next-server loop. -/
def radius_client_query_timeout_cb_model (srvCount : Nat) (pol : SrvPol)
    (k1 k2 sendRes : Nat) (sendNewRes : Nat → Nat) (curIdx : Nat) (st : RQState) :
    Nat × Option Nat :=
  match timeoutBudget pol k1 k2 st with
  | .error e => (curIdx, some e)
  | .ok _ =>
    let p := failoverLoop sendNewRes srvCount curIdx sendRes
    (p.1, if p.2 ≠ 0 then some p.2 else none)

/-! ## Server registry (radius_client_server_remove and
radius_client_server_remove_by_addr, lines 474-514)

The registry array rad_cli->srv is modelled as its flat byte image:
servers_max elements of es = sizeof(radius_cli_srv_t) bytes each.  The C
memmove length expression uses sizeof(radius_cli_srv_p), the size ps of a
pointer, although the array elements have size es. -/

/-- Write the byte list vals into bs starting at position pos.  Writes past
the end of bs change nothing in the image (List.set out of range is the
identity); the byte ranges returned by the operations below record the
attempted extent of every access. -/
def listWrite {α : Type} : List α → Nat → List α → List α
  | bs, _, [] => bs
  | bs, p, v :: vs => listWrite (bs.set p v) (p + 1) vs

/-- The len bytes of bs starting at position pos. -/
def sliceN {α : Type} (bs : List α) (pos len : Nat) : List α := (bs.drop pos).take len

/-- memmove of len bytes from src to dst inside bs. -/
def memmoveModel {α : Type} (bs : List α) (dst src len : Nat) : List α :=
  listWrite bs dst (sliceN bs src len)

/-- memset of len zero bytes at position pos. -/
def memsetZero (bs : List Nat) (pos len : Nat) : List Nat :=
  listWrite bs pos (List.replicate len 0)

/-- The registry array: flat byte image plus cli_srv_count. -/
structure SrvArray where
  bytes : List Nat
  count : Nat
deriving DecidableEq

/-- Body shared by both remove operations once the scan has matched element
i (lines 485-489 and 506-510): memmove of sizeof(radius_cli_srv_p) *
(count - (i + 1)) bytes from element i + 1 to element i, decrement of
cli_srv_count, then memset of one element at index cli_srv_count - 1
computed in size_t arithmetic AFTER the decrement.  Returns the new array
together with the byte ranges (start, length) of the memmove read, the
memmove write and the memset write. -/
def serverRemoveAt (es ps i : Nat) (r : SrvArray) : SrvArray × List (Nat × Nat) :=
  let len := ps * (r.count - (i + 1))
  let moved := memmoveModel r.bytes (i * es) ((i + 1) * es) len
  let c2 := r.count - 1
  let mi := (c2 + (W - 1)) % W
  (⟨memsetZero moved (mi * es) es, c2⟩,
   [((i + 1) * es, len), (i * es, len), (mi * es, es)])

/-- radius_client_server_remove (lines 474-493): the handle is the address
of element hidx of the array, so the pointer comparison in the scan matches
exactly when hidx < cli_srv_count; otherwise the loop falls through and the
call is a no-op. -/
def radius_client_server_remove (es ps hidx : Nat) (r : SrvArray) :
    SrvArray × List (Nat × Nat) :=
  if hidx < r.count then serverRemoveAt es ps hidx r else (r, [])

/-- radius_client_server_remove_by_addr (lines 494-514): scan the entries
below cli_srv_count; the loop CONTINUES when sa_addr_port_is_eq reports the
addresses equal (nonzero), so the first entry whose address does NOT equal
the argument is removed; when every entry matches, the call is a no-op.
isEq is sa_addr_port_is_eq applied to the byte image of one element and
the target address. -/
def radius_client_server_remove_by_addr (es ps : Nat) (isEq : List Nat → Bool)
    (r : SrvArray) : SrvArray × List (Nat × Nat) :=
  match (List.range r.count).find? (fun i => ! isEq (sliceN r.bytes (i * es) es)) with
  | some i => serverRemoveAt es ps i r
  | none => (r, [])

/-! ## Enqueue (radius_client_query, lines 720-758) and the worker-side
message handler (radius_client_query_tpt_msg_cb / send_new prologue) -/

/-- RADIUS packet code of an Access-Request. -/
def RADIUS_PKT_TYPE_ACCESS_REQUEST : Nat := 1

/-- A caller buffer: the byte at offset 0 of the io_buf_t OBJECT itself
(what the expression ((rad_pkt_hdr_p)buf)->code at line 729 reads), the
packet bytes buf->data, and buf->used. -/
structure IoBuf where
  firstStructByte : Nat
  data : List Nat
  used : Nat
deriving DecidableEq

/-- radius_client_query (lines 720-758) for non-NULL arguments and a valid
query id.  nasAdd is radius_pkt_attr_add applied to the NAS-Identifier of
the client; msgSendErr is the result of tpt_msg_send.  The function never
reads the server registry: srvCount is accepted only to record that the
enqueue-time behaviour is independent of it.  On success it returns the
buffer as passed on (after the conditional attribute append) and the flag
that the query message was posted to the worker. -/
def radius_client_query_model (nasAdd : IoBuf → Except Nat IoBuf)
    (msgSendErr srvCount : Nat) (buf : IoBuf) : Except Nat (IoBuf × Bool) :=
  let step : Except Nat IoBuf :=
    if buf.firstStructByte = RADIUS_PKT_TYPE_ACCESS_REQUEST then nasAdd buf else .ok buf
  match step with
  | .error e => .error e
  | .ok b => if msgSendErr ≠ 0 then .error msgSendErr else .ok (b, true)

/-- Iteration kernel of the find-next-enabled-server loop: the last
argument counts the remaining iterations length - i, matching the loop
guard, so the kernel computes exactly the C for loop. -/
def findEnabledGo (l : List Bool) : Nat → Nat → Option Nat
  | _, 0 => none
  | i, n + 1 => if l.getD i false then some i else findEnabledGo l (i + 1) n

/-- The find-next-enabled-server loop of send_new (lines 810-816). -/
def findEnabledFrom (l : List Bool) (i : Nat) : Option Nat :=
  findEnabledGo l i (l.length - i)

/-- The server-selection prologue of radius_client_send_new
(lines 803-819): under the registry mutex, fail with EDESTADDRREQ when the
registry holds no servers, otherwise advance cur_srv_idx to the next
enabled entry, failing with ECONNREFUSED when none remains. -/
def send_new_server_select (srvEnabled : List Bool) (curIdx : Nat) : Except Nat Nat :=
  if srvEnabled.length = 0 then .error EDESTADDRREQ
  else
    match findEnabledFrom srvEnabled curIdx with
    | none => .error ECONNREFUSED
    | some i => .ok i

/-- radius_client_query_tpt_msg_cb (lines 759-772) on the worker thread:
run send_new; on a nonzero result call radius_client_query_done, which
invokes the completion callback with that error unless the callback was
cleared by cancellation.  restResult gives the result of the rest of
send_new once a server was selected.  Returns some e exactly when the
completion callback is invoked with error e. -/
def query_tpt_msg_cb_model (srvEnabled : List Bool) (curIdx : Nat)
    (restResult : Nat → Nat) (cbNull : Bool) : Option Nat :=
  let e := match send_new_server_select srvEnabled curIdx with
    | .error e0 => e0
    | .ok i => restResult i
  if e ≠ 0 then (if cbNull then none else some e) else none

/-! ## Receiver (radius_client_recv_cb, lines 995-1035) -/

/-- The per-query data the receiver reads: current server index and the
retransmission counters. -/
structure RecvQuery where
  cur_srv_idx : Nat
  retrans_count : Nat
  retrans_time : Nat
  retrans_duration : Nat
deriving DecidableEq

/-- Outcome of the receive callback for one datagram: completion of the
matched query with an error code, or a silent drop. -/
inductive RecvOut where
  | deliver (error : Nat)
  | drop
deriving DecidableEq

/-- radius_client_recv_cb (lines 995-1035): thread guard, receive error
check, radius_pkt_chk, slot lookup by the packet id byte, source address
filter against the current server of the matched query, and
radius_pkt_verify; on success radius_client_query_done completes the query
with error 0, unlinking it from its slot.  chkRes and verifyRes are the
results of the opaque codec calls; addrs gives the registry address per
server index (the C code indexes rad_cli->srv directly).  Returns the
outcome together with the slot table after the callback. -/
def radius_client_recv_cb_model (thrMatch : Bool) (error chkRes : Nat)
    (slots : List (Option RecvQuery)) (pktId : Nat)
    (addrs : List Nat) (fromAddr : Nat) (verifyRes : Nat) :
    RecvOut × List (Option RecvQuery) :=
  if thrMatch = false then (.drop, slots)
  else if error ≠ 0 then (.drop, slots)
  else if chkRes ≠ 0 then (.drop, slots)
  else
    match slots.getD pktId none with
    | none => (.drop, slots)
    | some q =>
      if fromAddr ≠ addrs.getD q.cur_srv_idx 0 then (.drop, slots)
      else if verifyRes ≠ 0 then (.drop, slots)
      else (.deliver 0, slots.set pktId none)

/-! ## Socket pool and query slots (radius_client_send_new lines 820-881
and radius_client_query_unlink_skt lines 655-675)

One worker-local pool of one address family is modelled.  A slot table
entry holds the identity (a Nat standing for the pointer stored into
queries_tmr[id].ident) of the query occupying the slot.  Counters are kept
as plain Nat: every decrement below happens on values the invariant proves
positive, where size_t and Nat subtraction agree, and the increments
cannot reach 2 ^ 64 on allocated data. -/

/-- One socket entry: slot table (256 entries), occupied-slot count
queries_count and the rolling hint queries_index. -/
structure SktM where
  slots : List (Option Nat)
  queries_count : Nat
  queries_index : Nat
deriving DecidableEq

def sktDefault : SktM := ⟨[], 0, 0⟩

/-- Number of occupied slots of a socket. -/
def occ (s : SktM) : Nat := s.slots.countP Option.isSome

/-- One query as the pool sees it: the socket back-reference (none when
detached) and the packet id / slot index query_id. -/
structure QueryM where
  skt : Option Nat
  query_id : Nat
deriving DecidableEq

/-- One worker-local pool: the socket vector, the pool-wide occupied-slot
total, and the live queries keyed by identity. -/
structure WorkerM where
  skts : List SktM
  pool_queries_count : Nat
  queries : List (Nat × QueryM)
deriving DecidableEq

/-- Dereference a query pointer: find the live query with identity qid. -/
def lookupQ (l : List (Nat × QueryM)) (qid : Nat) : Option QueryM :=
  (l.find? (fun p => p.1 == qid)).map Prod.snd

/-- Update the two linking fields of the query with identity qid. -/
def setQuerySkt (l : List (Nat × QueryM)) (qid : Nat) (sk : Option Nat) (id : Nat) :
    List (Nat × QueryM) :=
  l.map (fun p => if p.1 = qid then (p.1, ⟨sk, id⟩) else p)

/-- Lines 868-877 of send_new: link query qid into slot id of socket si
(queries_tmr[id].ident = query; queries_count ++ on the socket and on the
pool; query->skt = skt; in auto-id mode also queries_index = id + 1 and
query->query_id = id -- in fixed-id mode id equals the already stored
query_id, so writing it is the identity). -/
def attachQ (w : WorkerM) (qid si id : Nat) (auto : Bool) : WorkerM :=
  let s := w.skts.getD si sktDefault
  let s2 : SktM := ⟨s.slots.set id (some qid), s.queries_count + 1,
    if auto then id + 1 else s.queries_index⟩
  ⟨w.skts.set si s2, w.pool_queries_count + 1, setQuerySkt w.queries qid (some si) id⟩

/-- In auto-id mode line 872 overwrites the id byte (offset 1) of the
caller packet buffer with the allocated slot index. -/
def autoAttachBuf (buf : List Nat) (id : Nat) : List Nat := buf.set 1 id

/-- Lines 665-668 as they affect one socket record: clear the slot (which
also cancels its timer) and decrement queries_count.  The count is
positive whenever a query occupies a slot, where size_t and Nat
subtraction agree. -/
def sktClear (s : SktM) (id : Nat) : SktM :=
  ⟨s.slots.set id none, s.queries_count - 1, s.queries_index⟩

/-- radius_client_query_unlink_skt (lines 655-675): following the query
pointer, clear the back-reference, clear the slot, cancel its timer,
decrement both occupancy counters, then free the socket when it has no
queries left, the pool holds more than thr_sockets_min sockets and the
socket is the last of the vector (radius_client_socket_free removes it
from the vector tail; its destroy-queries sweep runs over an all-empty
slot table and does nothing). -/
def detachQ (w : WorkerM) (qid smin : Nat) : WorkerM :=
  match lookupQ w.queries qid with
  | none => w
  | some q =>
    match q.skt with
    | none => w
    | some si =>
      let s2 := sktClear (w.skts.getD si sktDefault) q.query_id
      let skts2 := w.skts.set si s2
      let queries2 := setQuerySkt w.queries qid none q.query_id
      if s2.queries_count = 0 ∧ smin < skts2.length ∧ si + 1 = skts2.length then
        ⟨skts2.take si, w.pool_queries_count - 1, queries2⟩
      else
        ⟨skts2, w.pool_queries_count - 1, queries2⟩

/-- The forward direction of the slot invariant for one query entry: a
query holding a socket back-reference is registered in that socket at its
query_id. -/
def queryLinked (w : WorkerM) (qid : Nat) (q : QueryM) : Prop :=
  match q.skt with
  | none => True
  | some si => si < w.skts.length ∧ q.query_id < 256 ∧
      (w.skts.getD si sktDefault).slots.getD q.query_id none = some qid

/-- The backward direction of the slot invariant for one slot: an occupied
slot points at a live query whose linking fields point back at it. -/
def slotBack (w : WorkerM) (si id : Nat) : Prop :=
  match (w.skts.getD si sktDefault).slots.getD id none with
  | none => True
  | some qid =>
    match lookupQ w.queries qid with
    | none => False
    | some q => q.skt = some si ∧ q.query_id = id

/-- Structural health of one socket entry: the slot table has 256 entries
and queries_count equals the number of occupied slots. -/
def sktOk (s : SktM) : Prop := s.slots.length = 256 ∧ s.queries_count = occ s

/-- The slot invariant of one worker pool (spec section 3, Invariant):
distinct query identities, both directions of the slot/query bijection,
per-socket counter correctness and the pool counter equal to the total. -/
def invariant (w : WorkerM) : Prop :=
  (w.queries.map Prod.fst).Nodup ∧
  (∀ p ∈ w.queries, queryLinked w p.1 p.2) ∧
  (∀ si, si < w.skts.length → ∀ id, id < 256 → slotBack w si id) ∧
  (∀ s ∈ w.skts, sktOk s) ∧
  w.pool_queries_count = (w.skts.map occ).sum

/-! ## Auto-id slot search (send_new lines 828-867) -/

/-- Iteration kernel of one probe segment of the auto-id search: the last
argument counts the remaining iterations stop - start, matching the loop
guard, so the kernel computes exactly the C for loop. -/
def findFreeSegGo (slots : List (Option Nat)) : Nat → Nat → Option Nat
  | _, 0 => none
  | s, n + 1 => if (slots.getD s none).isSome then findFreeSegGo slots (s + 1) n else some s

/-- One probe segment of the auto-id search: the first index q with
start ≤ q < stop whose slot is free (queries_tmr[q].ident == 0). -/
def findFreeSeg (slots : List (Option Nat)) (start stop : Nat) : Option Nat :=
  findFreeSegGo slots start (stop - start)

/-- The auto-id slot search over the socket vector (lines 828-856 with
query_id_any set): skip sockets whose queries_count equals 256, probe from
queries_index to 255, then from 0 up to (excluding) queries_index; the
first socket yielding a slot wins.  i is the index of the first socket of
l in the vector. -/
def poolFindAuto : List SktM → Nat → Option (Nat × Nat)
  | [], _ => none
  | s :: rest, i =>
    if s.queries_count = 256 then poolFindAuto rest (i + 1)
    else
      match findFreeSeg s.slots s.queries_index 256 with
      | some q => some (i, q)
      | none =>
        match findFreeSeg s.slots 0 s.queries_index with
        | some q => some (i, q)
        | none => poolFindAuto rest (i + 1)

/-- The two-segment probe order property the auto-id search is claimed to
satisfy: either the slot is at or after the hint and every probed slot
from the hint up to it was occupied, or it is below the hint and the whole
upper segment plus every slot below it was occupied. -/
def probeOrdered (s : SktM) (q : Nat) : Prop :=
  (s.queries_index ≤ q ∧
    ∀ r, s.queries_index ≤ r → r < q → (s.slots.getD r none).isSome = true) ∨
  (q < s.queries_index ∧
    (∀ r, s.queries_index ≤ r → r < 256 → (s.slots.getD r none).isSome = true) ∧
    ∀ r, r < q → (s.slots.getD r none).isSome = true)

/-! ## Theorems -/

theorem rnd_divisor_pos (k : Nat) : 1 ≤ rnd_divisor k := by
  unfold rnd_divisor
  split <;> omega

theorem rnd_factor_cases (k t : Nat) :
    ∃ j, j ≤ t ∧ (radius_client_rnd_factor k t = j ∨
      radius_client_rnd_factor k t = negW j) := by
  refine ⟨t / rnd_divisor k, Nat.div_le_self _ _, ?_⟩
  unfold radius_client_rnd_factor
  by_cases h : rnd_negbit k <;> simp [h]

/-- Claim C6: the jitter divisor is never zero, and for every t with
0 < t < 2 ^ 64 and every CRC byte k the jittered retransmission time
t - rnd_factor(t) (uint64_t arithmetic) differs from t by at most t and is
nonnegative. -/
theorem C6_jitter_bounds (k t : Nat) (ht : 0 < t) (hW : t < W) :
    1 ≤ rnd_divisor k ∧
    ((retrans_time_of k t : Int) - (t : Int)).natAbs ≤ t ∧
    0 ≤ (retrans_time_of k t : Int) := by
  refine ⟨rnd_divisor_pos k, ?_, Int.natCast_nonneg _⟩
  obtain ⟨j, hj, hc⟩ := rnd_factor_cases k t
  unfold retrans_time_of subW negW W at *
  rcases hc with h | h <;> rw [h] <;> omega

theorem C6_jitter_bounds_witness :
    0 < 1000 ∧ 1000 < W ∧
    (1 ≤ rnd_divisor 200 ∧
      ((retrans_time_of 200 1000 : Int) - (1000 : Int)).natAbs ≤ 1000 ∧
      0 ≤ (retrans_time_of 200 1000 : Int)) :=
  ⟨by decide, by decide, C6_jitter_bounds 200 1000 (by decide) (by decide)⟩

theorem subW_eq_of_le (a b : Nat) (hb : b ≤ a) (ha : a < W) : subW a b = a - b := by
  unfold subW W at *
  omega

/-- The doubled-and-jittered backoff 2t - rnd_factor(t) is at most 3t when
3t does not wrap. -/
theorem backoff_le (k t : Nat) (h : 3 * t < W) :
    subW ((2 * t) % W) (radius_client_rnd_factor k t) ≤ 3 * t := by
  obtain ⟨j, hj, hc⟩ := rnd_factor_cases k t
  unfold subW negW W at *
  rcases hc with h2 | h2 <;> rw [h2] <;> omega

/-- The jittered value m - rnd_factor(m) is at most 2m when 2m does not
wrap. -/
theorem capjitter_le (k m : Nat) (h : 2 * m < W) :
    subW m (radius_client_rnd_factor k m) ≤ 2 * m := by
  obtain ⟨j, hj, hc⟩ := rnd_factor_cases k m
  unfold subW negW W at *
  rcases hc with h2 | h2 <;> rw [h2] <;> omega

/-- One successful pass of the timeout-handler budget code keeps the
accumulated duration plus the armed interval within the duration budget,
given that it held before the pass and the policy values are small enough
for the uint64_t arithmetic to be exact (2305843009213693952 is 2 ^ 61). -/
theorem timeoutBudget_ok_duration (pol : SrvPol) (k1 k2 : Nat) (st st2 : RQState)
    (hmrd : pol.retrans_duration_max ≠ 0)
    (hmrdB : pol.retrans_duration_max ≤ 2305843009213693952)
    (hmrtB : pol.retrans_time_max ≤ 2305843009213693952)
    (hinv : st.retrans_duration + st.retrans_time ≤ pol.retrans_duration_max)
    (h : timeoutBudget pol k1 k2 st = .ok st2) :
    st2.retrans_duration + st2.retrans_time ≤ pol.retrans_duration_max ∧
    st2.retrans_duration < pol.retrans_duration_max := by
  have hWnum : W = 18446744073709551616 := rfl
  have hdlt : st.retrans_duration + st.retrans_time < W := by omega
  have hd : (st.retrans_duration + st.retrans_time) % W
      = st.retrans_duration + st.retrans_time := Nat.mod_eq_of_lt hdlt
  simp only [timeoutBudget, hd] at h
  set a1 := subW ((2 * st.retrans_time) % W) (radius_client_rnd_factor k1 st.retrans_time)
    with ha1
  set a2 := subW pol.retrans_time_max (radius_client_rnd_factor k2 pol.retrans_time_max)
    with ha2
  set a3 := subW pol.retrans_duration_max (st.retrans_duration + st.retrans_time) with ha3
  have ht1 : a1 ≤ 3 * st.retrans_time := by
    rw [ha1]
    exact backoff_le k1 st.retrans_time (by omega)
  have ht2 : a2 ≤ 2 * pol.retrans_time_max := by
    rw [ha2]
    exact capjitter_le k2 pol.retrans_time_max (by omega)
  have ha3eq : a3 = pol.retrans_duration_max - (st.retrans_duration + st.retrans_time) := by
    rw [ha3]
    exact subW_eq_of_le _ _ hinv (by omega)
  rw [hWnum] at h
  split_ifs at h <;>
    simp only [Except.ok.injEq, reduceCtorEq] at h
  · rename_i hc1 hc2 hcap hclamp hrem
    subst h
    have hdm := (not_and.mp hc2) hmrd
    dsimp only
    constructor <;> omega
  · rename_i hc1 hc2 hcap hclamp
    subst h
    have hdm := (not_and.mp hc2) hmrd
    have hcl := (not_and.mp hclamp) hmrd
    dsimp only
    constructor <;> omega
  · rename_i hc1 hc2 hcap hclamp hrem
    subst h
    have hdm := (not_and.mp hc2) hmrd
    dsimp only
    constructor <;> omega
  · rename_i hc1 hc2 hcap hclamp
    subst h
    have hdm := (not_and.mp hc2) hmrd
    have hcl := (not_and.mp hclamp) hmrd
    dsimp only
    constructor <;> omega

/-- Claim C8, counterexample: with retrans_time_init = 1000 and
retrans_duration_max = 500 the very first armed interval (993 ms after
jitter with CRC byte 127) already exceeds the duration budget; the first
timer firing accumulates 993 into retrans_duration and gives up, so the
total waited time is 993 > 500.  send_new performs no duration check when
generating the initial interval. -/
theorem C8_counterexample :
    (sendNewRetrans ⟨1000, 0, 500, 0⟩ 127 0).retrans_time = 993 ∧
    firedDuration (sendNewRetrans ⟨1000, 0, 500, 0⟩ 127 0) = 993 ∧
    (⟨1000, 0, 500, 0⟩ : SrvPol).retrans_duration_max = 500 ∧
    timeoutBudget ⟨1000, 0, 500, 0⟩ 127 127 (sendNewRetrans ⟨1000, 0, 500, 0⟩ 127 0)
      = .error ETIMEDOUT ∧
    ¬ 993 ≤ 500 :=
  ⟨rfl, rfl, rfl, rfl, by decide⟩

/-- Claim C8 amended: for a server with a nonzero duration budget, the
timer handler clamps the next interval to the remaining budget and
completes the query (TIMED_OUT) when the remainder is below
retrans_time_init; PROVIDED the initially armed interval fits the budget
(retrans_duration + retrans_time ≤ max at the start, which send_new does
not itself guarantee) and the policy values stay below 2 ^ 61 so that the
uint64_t arithmetic is exact, every reachable firing keeps the total
accumulated duration within retrans_duration_max. -/
theorem C8_amended_duration_cap (pol : SrvPol) (ks : Nat → Nat × Nat) (st0 : RQState)
    (hmrd : pol.retrans_duration_max ≠ 0)
    (hmrdB : pol.retrans_duration_max ≤ 2305843009213693952)
    (hmrtB : pol.retrans_time_max ≤ 2305843009213693952)
    (hinit : st0.retrans_duration + st0.retrans_time ≤ pol.retrans_duration_max) :
    ∀ n st2, iterSteps pol ks n st0 = .ok st2 →
      firedDuration st2 ≤ pol.retrans_duration_max ∧
      st2.retrans_duration ≤ pol.retrans_duration_max := by
  have key : ∀ n st, st.retrans_duration + st.retrans_time ≤ pol.retrans_duration_max →
      ∀ st2, iterSteps pol ks n st = .ok st2 →
        st2.retrans_duration + st2.retrans_time ≤ pol.retrans_duration_max := by
    intro n
    induction n with
    | zero =>
      intro st hst st2 h
      simp only [iterSteps] at h
      injection h with h9
      subst h9
      exact hst
    | succ m ih =>
      intro st hst st2 h
      simp only [iterSteps] at h
      split at h
      · exact absurd h (by simp)
      · rename_i st3 heq
        exact ih st3
          (timeoutBudget_ok_duration pol _ _ st st3 hmrd hmrdB hmrtB hst heq).1 st2 h
  intro n st2 h
  have h2 := key n st0 hinit st2 h
  have hWnum : W = 18446744073709551616 := rfl
  unfold firedDuration
  constructor
  · have : (st2.retrans_duration + st2.retrans_time) % W
        = st2.retrans_duration + st2.retrans_time := Nat.mod_eq_of_lt (by omega)
    omega
  · omega

theorem C8_amended_duration_cap_witness :
    (⟨100, 0, 1000, 0⟩ : SrvPol).retrans_duration_max ≠ 0 ∧
    (⟨100, 0, 1000, 0⟩ : SrvPol).retrans_duration_max ≤ 2305843009213693952 ∧
    (⟨100, 0, 1000, 0⟩ : SrvPol).retrans_time_max ≤ 2305843009213693952 ∧
    (⟨0, 100, 0⟩ : RQState).retrans_duration + (⟨0, 100, 0⟩ : RQState).retrans_time
      ≤ (⟨100, 0, 1000, 0⟩ : SrvPol).retrans_duration_max ∧
    (firedDuration ⟨2, 399, 300⟩ ≤ (⟨100, 0, 1000, 0⟩ : SrvPol).retrans_duration_max ∧
      (⟨2, 399, 300⟩ : RQState).retrans_duration
        ≤ (⟨100, 0, 1000, 0⟩ : SrvPol).retrans_duration_max) :=
  ⟨by decide, by decide, by decide, by decide,
    C8_amended_duration_cap ⟨100, 0, 1000, 0⟩ (fun _ => (127, 127)) ⟨0, 100, 0⟩
      (by decide) (by decide) (by decide) (by decide) 2 ⟨2, 399, 300⟩ rfl⟩

/-- Claim C1 evaluated at its failing input: two servers are registered, the
current server (index 0) has max_retries = 1, and the first firing of the
retransmission timer exhausts the retry budget.  The handler takes goto
err_out, which jumps PAST the try-next-server loop, and completes the query
with ETIMEDOUT at cur_srv_idx = 0 even though server 1 exists and (per the
sendNewRes oracle, second conjunct) would have accepted the query had the
loop run. -/
theorem C1_budget_exhaustion_skips_failover :
    radius_client_query_timeout_cb_model 2 ⟨100, 0, 0, 1⟩ 0 0 0 (fun _ => 0) 0 ⟨0, 100, 0⟩
      = (0, some ETIMEDOUT) ∧
    failoverLoop (fun _ => 0) 2 0 1 = (1, 0) :=
  ⟨rfl, rfl⟩

/-- Claim C4 evaluated at its failing inputs, with element size es = 16 and
pointer size ps = 8.  First block: removing the LAST of two entries
(entries filled with bytes 1 and 2) zeroes the surviving entry, because the
post-decrement memset targets index count - 1 instead of the vacated index
count.  Second block: removing the first of three entries moves only
sizeof(pointer) * 2 = 16 bytes instead of two full elements, and the memset
then zeroes element 1, so the surviving entries are NOT the previous
entries minus the removed one.  Third block: remove_by_addr with a target
address equal to entry 0 selects index 1 for removal, because the scan
continues on entries that compare EQUAL. -/
theorem C4_server_remove_corruption :
    (sliceN (radius_client_server_remove 16 8 1
        ⟨List.replicate 16 1 ++ List.replicate 16 2, 2⟩).1.bytes 0 16
      = List.replicate 16 0 ∧
     (radius_client_server_remove 16 8 1
        ⟨List.replicate 16 1 ++ List.replicate 16 2, 2⟩).1.count = 1 ∧
     sliceN (⟨List.replicate 16 1 ++ List.replicate 16 2, 2⟩ : SrvArray).bytes 0 16
      = List.replicate 16 1) ∧
    (sliceN (radius_client_server_remove 16 8 0
        ⟨List.replicate 16 1 ++ List.replicate 16 2 ++ List.replicate 16 3, 3⟩).1.bytes 16 16
      = List.replicate 16 0 ∧
     sliceN (⟨List.replicate 16 1 ++ List.replicate 16 2 ++ List.replicate 16 3, 3⟩
        : SrvArray).bytes 32 16 = List.replicate 16 3) ∧
    ((List.range 2).find?
        (fun i => ! (sliceN (List.replicate 16 1 ++ List.replicate 16 2) (i * 16) 16
          == List.replicate 16 1)) = some 1 ∧
     (radius_client_server_remove_by_addr 16 8 (fun l => l == List.replicate 16 1)
        ⟨List.replicate 16 1 ++ List.replicate 16 2, 2⟩).1.count = 1 ∧
     sliceN (radius_client_server_remove_by_addr 16 8 (fun l => l == List.replicate 16 1)
        ⟨List.replicate 16 1 ++ List.replicate 16 2, 2⟩).1.bytes 0 16
      = List.replicate 16 0) := by
  exact ⟨⟨by decide, by decide, by decide⟩, ⟨by decide, by decide⟩,
    ⟨by decide, by decide, by decide⟩⟩

/-- Claim C10 evaluated at its failing input: a registry of servers_max = 4
allocated elements (es = 16 bytes each, allocated byte range 0..63) holding
exactly one entry.  Removing that entry decrements cli_srv_count to 0 and
then memsets element index (0 - 1) computed in size_t, i.e. 2 ^ 64 - 1:
the recorded write range starts far beyond the allocated 64 bytes. -/
theorem C10_remove_last_entry_oob :
    (radius_client_server_remove 16 8 0
        ⟨List.replicate 16 5 ++ List.replicate 48 0, 1⟩).2
      = [(16, 0), (0, 0), ((W - 1) * 16, 16)] ∧
    ((radius_client_server_remove 16 8 0
        ⟨List.replicate 16 5 ++ List.replicate 48 0, 1⟩).2).any
        (fun a => decide (4 * 16 < a.1 + a.2)) = true ∧
    (radius_client_server_remove 16 8 0
        ⟨List.replicate 16 5 ++ List.replicate 48 0, 1⟩).1.count = 0 := by
  exact ⟨rfl, by decide, rfl⟩

/-- Claim C3 evaluated at its failing input.  The guard at line 729 reads
((rad_pkt_hdr_p)buf)->code, the first byte of the io_buf STRUCT, not of
buf->data (every other cast in the file uses buf->data).  First block: the
buffer data holds an Access-Request (packet code byte data[0] = 1) but the
struct byte is 0, so the enqueue passes the buffer through UNCHANGED.
Second and third block: the attribute-append collaborator (modelled as
appending byte 99) does change the buffer, so the append really was
skipped.  Fourth block: a non-Access-Request packet (data[0] = 4) HAS the
attribute appended whenever the struct byte happens to equal 1. -/
theorem C3_nas_identifier_reads_wrong_byte :
    radius_client_query_model
        (fun b => .ok ⟨b.firstStructByte, b.data ++ [99], b.used + 1⟩) 0 1
        ⟨0, [1, 7, 0, 20], 20⟩
      = .ok (⟨0, [1, 7, 0, 20], 20⟩, true) ∧
    (fun (b : IoBuf) =>
        (.ok ⟨b.firstStructByte, b.data ++ [99], b.used + 1⟩ : Except Nat IoBuf))
        ⟨0, [1, 7, 0, 20], 20⟩ = .ok ⟨0, [1, 7, 0, 20, 99], 21⟩ ∧
    (⟨0, [1, 7, 0, 20, 99], 21⟩ : IoBuf) ≠ ⟨0, [1, 7, 0, 20], 20⟩ ∧
    radius_client_query_model
        (fun b => .ok ⟨b.firstStructByte, b.data ++ [99], b.used + 1⟩) 0 1
        ⟨1, [4, 7, 0, 20], 20⟩
      = .ok (⟨1, [4, 7, 0, 20, 99], 21⟩, true) :=
  ⟨rfl, rfl, by decide, rfl⟩

/-- Claim C5 counterexample: enqueueing while the server registry is empty
does NOT return NO_SERVER synchronously.  radius_client_query never reads
the registry (the srvCount argument, 0 here, is unread by the model
exactly as by the C function): with valid arguments and a successful
tpt_msg_send it returns success after posting the query message. -/
theorem C5_counterexample_enqueue_succeeds :
    radius_client_query_model (fun b => .ok b) 0 0 ⟨0, [4, 9, 0, 20], 20⟩
      = .ok (⟨0, [4, 9, 0, 20], 20⟩, true) := rfl

/-- Claim C5 amended: with zero servers the enqueue itself succeeds, and
the NO_SERVER error (EDESTADDRREQ) is produced by the server-selection
prologue of send_new on the worker thread; the message handler then hands
it to radius_client_query_done, which delivers it through the completion
callback (unless cancelled), for every cur_srv_idx and every behaviour of
the rest of send_new. -/
theorem C5_amended_no_server_via_callback :
    (∀ curIdx restResult, query_tpt_msg_cb_model [] curIdx restResult false
        = some EDESTADDRREQ) ∧
    (∀ curIdx, send_new_server_select [] curIdx = .error EDESTADDRREQ) ∧
    radius_client_query_model (fun b => .ok b) 0 0 ⟨1, [1, 9, 0, 20], 20⟩
      = .ok (⟨1, [1, 9, 0, 20], 20⟩, true) :=
  ⟨fun _ _ => rfl, fun _ => rfl, rfl⟩

/-- Claim C9: on the owning worker thread, an inbound datagram is delivered
to a query as a successful completion (which unlinks the query from its
slot) if and only if the receive reported no error, radius_pkt_chk passed,
the slot at the packet id byte is occupied, the datagram source address
equals the address of the current server of the matched query, and
radius_pkt_verify passed; and every dropped datagram leaves the slot table
(hence the matched query, its counters and its armed timer) unchanged. -/
theorem C9_recv_filter (error chkRes : Nat) (slots : List (Option RecvQuery))
    (pktId : Nat) (addrs : List Nat) (fromAddr verifyRes : Nat) :
    ((radius_client_recv_cb_model true error chkRes slots pktId addrs fromAddr verifyRes).1
        = RecvOut.deliver 0 ↔
      error = 0 ∧ chkRes = 0 ∧ ∃ q, slots.getD pktId none = some q ∧
        fromAddr = addrs.getD q.cur_srv_idx 0 ∧ verifyRes = 0) ∧
    ((radius_client_recv_cb_model true error chkRes slots pktId addrs fromAddr verifyRes).1
        = RecvOut.deliver 0 →
      (radius_client_recv_cb_model true error chkRes slots pktId addrs fromAddr verifyRes).2
        = slots.set pktId none) ∧
    ((radius_client_recv_cb_model true error chkRes slots pktId addrs fromAddr verifyRes).1
        = RecvOut.drop →
      (radius_client_recv_cb_model true error chkRes slots pktId addrs fromAddr verifyRes).2
        = slots) := by
  rcases hs : slots.getD pktId none with _ | q <;>
    simp only [radius_client_recv_cb_model, hs] <;>
    split_ifs <;>
    simp_all

/-! ## List helpers for the slot-table proofs -/

theorem getD_set_same {α : Type} (l : List α) (n : Nat) (a d : α) (h : n < l.length) :
    (l.set n a).getD n d = a := by
  induction l generalizing n with
  | nil => simp at h
  | cons x xs ih =>
    cases n with
    | zero => rfl
    | succ m => simpa [List.getD_cons_succ] using ih m (by simpa using h)

theorem getD_set_other {α : Type} (l : List α) (n m : Nat) (a d : α) (h : n ≠ m) :
    (l.set n a).getD m d = l.getD m d := by
  induction l generalizing n m with
  | nil => rfl
  | cons x xs ih =>
    cases n with
    | zero =>
      cases m with
      | zero => exact absurd rfl h
      | succ k => simp [List.getD_cons_succ]
    | succ n2 =>
      cases m with
      | zero => simp [List.getD_cons_zero]
      | succ k => simpa [List.getD_cons_succ] using ih n2 k (by omega)

theorem getD_mem {α : Type} (l : List α) (n : Nat) (d : α) (h : n < l.length) :
    l.getD n d ∈ l := by
  induction l generalizing n with
  | nil => simp at h
  | cons x xs ih =>
    cases n with
    | zero => exact List.mem_cons_self x xs
    | succ m =>
      simpa [List.getD_cons_succ] using List.mem_cons_of_mem x (ih m (by simpa using h))

theorem getD_some_mem {α : Type} (l : List α) (n : Nat) (d : α) (h : n < l.length) :
    ∃ x ∈ l, l.getD n d = x :=
  ⟨l.getD n d, getD_mem l n d h, rfl⟩

theorem countP_set_add {α : Type} (p : α → Bool) (l : List α) (n : Nat) (a d : α)
    (h : n < l.length) :
    (l.set n a).countP p + (if p (l.getD n d) then 1 else 0)
      = l.countP p + (if p a then 1 else 0) := by
  induction l generalizing n with
  | nil => simp at h
  | cons x xs ih =>
    cases n with
    | zero =>
      simp only [List.set_cons_zero, List.countP_cons, List.getD_cons_zero]
      omega
    | succ m =>
      simp only [List.set_cons_succ, List.countP_cons, List.getD_cons_succ]
      have := ih m (by simpa using h)
      omega

theorem sum_map_set_add {α : Type} (f : α → Nat) (l : List α) (n : Nat) (a d : α)
    (h : n < l.length) :
    ((l.set n a).map f).sum + f (l.getD n d) = (l.map f).sum + f a := by
  induction l generalizing n with
  | nil => simp at h
  | cons x xs ih =>
    cases n with
    | zero =>
      simp only [List.set_cons_zero, List.map_cons, List.sum_cons, List.getD_cons_zero]
      omega
    | succ m =>
      simp only [List.set_cons_succ, List.map_cons, List.sum_cons, List.getD_cons_succ]
      have := ih m (by simpa using h)
      omega

theorem getD_take_lt {α : Type} (l : List α) (n m : Nat) (d : α) (h : m < n) :
    (l.take n).getD m d = l.getD m d := by
  induction l generalizing n m with
  | nil => simp
  | cons x xs ih =>
    cases n with
    | zero => omega
    | succ n2 =>
      cases m with
      | zero => rfl
      | succ m2 => simpa [List.getD_cons_succ] using ih n2 m2 (by omega)

theorem sum_map_take_last {α : Type} (f : α → Nat) (l : List α) (n : Nat) (d : α)
    (h : n + 1 = l.length) :
    ((l.take n).map f).sum + f (l.getD n d) = (l.map f).sum := by
  induction l generalizing n with
  | nil => simp at h
  | cons x xs ih =>
    cases n with
    | zero =>
      have hx : xs = [] := by
        cases xs with
        | nil => rfl
        | cons y ys => simp at h
      subst hx
      simp [List.getD_cons_zero]
    | succ n2 =>
      simp only [List.take_succ_cons, List.map_cons, List.sum_cons, List.getD_cons_succ]
      have := ih n2 (by simpa using h)
      omega

theorem mem_of_mem_set {α : Type} (l : List α) (n : Nat) (a x : α) (h : x ∈ l.set n a) :
    x = a ∨ x ∈ l := by
  induction l generalizing n with
  | nil => simp at h
  | cons y ys ih =>
    cases n with
    | zero =>
      rcases List.mem_cons.mp h with h2 | h2
      · exact Or.inl h2
      · exact Or.inr (List.mem_cons_of_mem y h2)
    | succ m =>
      rcases List.mem_cons.mp h with h2 | h2
      · exact Or.inr (h2 ▸ List.mem_cons_self y ys)
      · rcases ih m h2 with h3 | h3
        · exact Or.inl h3
        · exact Or.inr (List.mem_cons_of_mem y h3)

theorem getD_replicate_lt {α : Type} (n m : Nat) (a d : α) (h : m < n) :
    (List.replicate n a).getD m d = a := by
  induction n generalizing m with
  | zero => omega
  | succ n2 ih =>
    cases m with
    | zero => rfl
    | succ m2 => simpa [List.replicate_succ, List.getD_cons_succ] using ih m2 (by omega)

/-! ## Query-list helpers -/

theorem map_fst_setQuerySkt (l : List (Nat × QueryM)) (qid : Nat) (sk : Option Nat)
    (id : Nat) :
    (setQuerySkt l qid sk id).map Prod.fst = l.map Prod.fst := by
  unfold setQuerySkt
  rw [List.map_map]
  congr 1
  funext p
  by_cases h : p.1 = qid <;> simp [Function.comp, h]

theorem lookupQ_setQuerySkt_self (l : List (Nat × QueryM)) (qid : Nat) (sk : Option Nat)
    (id : Nat) :
    lookupQ (setQuerySkt l qid sk id) qid
      = (lookupQ l qid).map (fun _ => (⟨sk, id⟩ : QueryM)) := by
  induction l with
  | nil => rfl
  | cons p ps ih =>
    by_cases h : p.1 = qid
    · simp only [setQuerySkt, lookupQ, List.map_cons, if_pos h]
      rw [List.find?_cons_of_pos _ (by simpa using h), List.find?_cons_of_pos _ (by simpa using h)]
      rfl
    · simp only [setQuerySkt, lookupQ, List.map_cons, if_neg h]
      rw [List.find?_cons_of_neg _ (by simpa using h), List.find?_cons_of_neg _ (by simpa using h)]
      exact ih

theorem lookupQ_setQuerySkt_other (l : List (Nat × QueryM)) (qid qid2 : Nat)
    (sk : Option Nat) (id : Nat) (h : qid2 ≠ qid) :
    lookupQ (setQuerySkt l qid sk id) qid2 = lookupQ l qid2 := by
  induction l with
  | nil => rfl
  | cons p ps ih =>
    by_cases h1 : p.1 = qid
    · have h2 : ¬ p.1 = qid2 := by omega
      simp only [setQuerySkt, lookupQ, List.map_cons, if_pos h1]
      rw [List.find?_cons_of_neg _ (by simpa using h2),
        List.find?_cons_of_neg _ (by simpa using h2)]
      exact ih
    · by_cases h2 : p.1 = qid2
      · simp only [setQuerySkt, lookupQ, List.map_cons, if_neg h1]
        rw [List.find?_cons_of_pos _ (by simpa using h2),
          List.find?_cons_of_pos _ (by simpa using h2)]
      · simp only [setQuerySkt, lookupQ, List.map_cons, if_neg h1]
        rw [List.find?_cons_of_neg _ (by simpa using h2),
          List.find?_cons_of_neg _ (by simpa using h2)]
        exact ih

theorem mem_setQuerySkt (l : List (Nat × QueryM)) (qid : Nat) (sk : Option Nat) (id : Nat)
    (p2 : Nat × QueryM) (h : p2 ∈ setQuerySkt l qid sk id) :
    ∃ p ∈ l, p2 = if p.1 = qid then (p.1, (⟨sk, id⟩ : QueryM)) else p := by
  unfold setQuerySkt at h
  obtain ⟨p, hp, he⟩ := List.mem_map.mp h
  exact ⟨p, hp, he.symm⟩

theorem lookupQ_mem (l : List (Nat × QueryM)) (qid : Nat) (q : QueryM)
    (h : lookupQ l qid = some q) : (qid, q) ∈ l := by
  unfold lookupQ at h
  rcases hf : l.find? (fun p => p.1 == qid) with _ | p
  · rw [hf] at h
    exact Option.noConfusion h
  · rw [hf] at h
    rw [show Option.map Prod.snd (some p) = some p.2 from rfl] at h
    injection h with h
    have hm := List.mem_of_find?_eq_some hf
    have hp := List.find?_some hf
    simp only [beq_iff_eq] at hp
    have hpq : p = (qid, q) := by
      rcases p with ⟨a, b⟩
      simp only at hp h
      rw [hp, h]
    exact hpq ▸ hm

theorem lookupQ_of_mem_nodup (l : List (Nat × QueryM)) (qid : Nat) (q : QueryM)
    (hn : (l.map Prod.fst).Nodup) (hm : (qid, q) ∈ l) : lookupQ l qid = some q := by
  induction l with
  | nil => simp at hm
  | cons p ps ih =>
    simp only [List.map_cons, List.nodup_cons] at hn
    rcases List.mem_cons.mp hm with h | h
    · unfold lookupQ
      rw [List.find?_cons_of_pos _ (by simp [← h])]
      rw [← h]
      rfl
    · have hq : qid ∈ ps.map Prod.fst := by
        simpa using List.mem_map_of_mem Prod.fst h
      have hne : ¬ p.1 = qid := fun he => hn.1 (he ▸ hq)
      unfold lookupQ
      rw [List.find?_cons_of_neg _ (by simpa using hne)]
      exact ih hn.2 h

/-! ## Invariant helper lemmas -/

theorem queryLinked_intro (w : WorkerM) (qid : Nat) (q : QueryM)
    (h : ∀ si, q.skt = some si →
      si < w.skts.length ∧ q.query_id < 256 ∧
      (w.skts.getD si sktDefault).slots.getD q.query_id none = some qid) :
    queryLinked w qid q := by
  unfold queryLinked
  rcases hc : q.skt with _ | si
  · trivial
  · exact h si hc

theorem queryLinked_elim (w : WorkerM) (qid : Nat) (q : QueryM) (si : Nat)
    (h : queryLinked w qid q) (hc : q.skt = some si) :
    si < w.skts.length ∧ q.query_id < 256 ∧
    (w.skts.getD si sktDefault).slots.getD q.query_id none = some qid := by
  unfold queryLinked at h
  rw [hc] at h
  exact h

theorem slotBack_intro (w : WorkerM) (si id : Nat)
    (h : ∀ qid, (w.skts.getD si sktDefault).slots.getD id none = some qid →
      ∃ q, lookupQ w.queries qid = some q ∧ q.skt = some si ∧ q.query_id = id) :
    slotBack w si id := by
  unfold slotBack
  rcases hc : (w.skts.getD si sktDefault).slots.getD id none with _ | qid
  · trivial
  · obtain ⟨q, h1, h2, h3⟩ := h qid hc
    show (match lookupQ w.queries qid with
      | none => False
      | some q => q.skt = some si ∧ q.query_id = id)
    rw [h1]
    exact ⟨h2, h3⟩

theorem slotBack_elim (w : WorkerM) (si id qid : Nat)
    (hs : slotBack w si id)
    (hc : (w.skts.getD si sktDefault).slots.getD id none = some qid) :
    ∃ q, lookupQ w.queries qid = some q ∧ q.skt = some si ∧ q.query_id = id := by
  unfold slotBack at hs
  rw [hc] at hs
  have hs2 : (match lookupQ w.queries qid with
    | none => False
    | some q => q.skt = some si ∧ q.query_id = id) := hs
  rcases hl : lookupQ w.queries qid with _ | q
  · rw [hl] at hs2
    exact (hs2 : False).elim
  · rw [hl] at hs2
    have hs3 : q.skt = some si ∧ q.query_id = id := hs2
    exact ⟨q, rfl, hs3.1, hs3.2⟩

theorem attachQ_skts (w : WorkerM) (qid si id : Nat) (auto : Bool) :
    (attachQ w qid si id auto).skts
      = w.skts.set si ⟨(w.skts.getD si sktDefault).slots.set id (some qid),
          (w.skts.getD si sktDefault).queries_count + 1,
          if auto then id + 1 else (w.skts.getD si sktDefault).queries_index⟩ := rfl

theorem attachQ_pool (w : WorkerM) (qid si id : Nat) (auto : Bool) :
    (attachQ w qid si id auto).pool_queries_count = w.pool_queries_count + 1 := rfl

theorem attachQ_queries (w : WorkerM) (qid si id : Nat) (auto : Bool) :
    (attachQ w qid si id auto).queries = setQuerySkt w.queries qid (some si) id := rfl

/-- Attaching a detached live query into a free slot preserves the slot
invariant. -/
theorem attach_preserves (w : WorkerM) (qid si id : Nat) (auto : Bool)
    (hinv : invariant w)
    (hq : ∃ q0, lookupQ w.queries qid = some q0 ∧ q0.skt = none)
    (hsi : si < w.skts.length) (hid : id < 256)
    (hfree : (w.skts.getD si sktDefault).slots.getD id none = none) :
    invariant (attachQ w qid si id auto) := by
  obtain ⟨q0, hq0, hq0skt⟩ := hq
  obtain ⟨hnd, hlink, hback, hok, hpool⟩ := hinv
  have hsok := hok (w.skts.getD si sktDefault) (getD_mem _ _ _ hsi)
  have hslen : (w.skts.getD si sktDefault).slots.length = 256 := hsok.1
  have hidlen : id < (w.skts.getD si sktDefault).slots.length := by omega
  have hcp := countP_set_add Option.isSome (w.skts.getD si sktDefault).slots id
    (some qid) none hidlen
  rw [hfree] at hcp
  simp only [Option.isSome_none, Option.isSome_some, Bool.false_eq_true,
    if_false, if_true] at hcp
  refine ⟨?_, ?_, ?_, ?_, ?_⟩
  · rw [attachQ_queries, map_fst_setQuerySkt]
    exact hnd
  · -- forward direction
    intro p2 hp2
    rw [attachQ_queries] at hp2
    obtain ⟨p, hp, hpe⟩ := mem_setQuerySkt _ _ _ _ _ hp2
    rcases p with ⟨pid, pq⟩
    by_cases hcase : pid = qid
    · simp only at hpe
      rw [if_pos hcase] at hpe
      subst hcase
      subst hpe
      apply queryLinked_intro
      intro sj hsj
      have hsj2 : some si = some sj := hsj
      injection hsj2 with hsj2
      subst hsj2
      refine ⟨?_, hid, ?_⟩
      · rw [attachQ_skts, List.length_set]
        exact hsi
      · rw [attachQ_skts, getD_set_same _ _ _ _ hsi]
        exact getD_set_same (w.skts.getD si sktDefault).slots id (some pid) none hidlen
    · simp only at hpe
      rw [if_neg hcase] at hpe
      subst hpe
      apply queryLinked_intro
      intro sj hsj
      obtain ⟨h1, h2, h3⟩ := queryLinked_elim w pid pq sj (hlink (pid, pq) hp) hsj
      refine ⟨?_, h2, ?_⟩
      · rw [attachQ_skts, List.length_set]
        exact h1
      · rw [attachQ_skts]
        by_cases hsj2 : sj = si
        · subst hsj2
          rw [getD_set_same _ _ _ _ hsi]
          have hne : pq.query_id ≠ id := by
            intro he
            rw [he, hfree] at h3
            exact Option.noConfusion h3
          show ((w.skts.getD sj sktDefault).slots.set id (some qid)).getD pq.query_id none
            = some pid
          rw [getD_set_other _ _ _ _ _ (fun he => hne he.symm)]
          exact h3
        · rw [getD_set_other _ _ _ _ _ (fun he => hsj2 he.symm)]
          exact h3
  · -- backward direction
    intro si2 hsi2 id2 hid2
    rw [attachQ_skts, List.length_set] at hsi2
    apply slotBack_intro
    intro qid2 hcon
    rw [attachQ_skts] at hcon
    by_cases hcase : si2 = si
    · subst hcase
      rw [getD_set_same _ _ _ _ hsi2] at hcon
      have hcon2 : ((w.skts.getD si2 sktDefault).slots.set id (some qid)).getD id2 none
          = some qid2 := hcon
      by_cases hcase2 : id2 = id
      · subst hcase2
        rw [getD_set_same (w.skts.getD si2 sktDefault).slots id2 (some qid) none
          (by omega)] at hcon2
        injection hcon2 with hcon2
        subst hcon2
        refine ⟨⟨some si2, id2⟩, ?_, rfl, rfl⟩
        rw [attachQ_queries, lookupQ_setQuerySkt_self, hq0]
        rfl
      · rw [getD_set_other _ _ _ _ _ (fun he => hcase2 he.symm)] at hcon2
        obtain ⟨q2, hl2, hsk2, hid2e⟩ :=
          slotBack_elim w si2 id2 qid2 (hback si2 hsi2 id2 hid2) hcon2
        have hne : qid2 ≠ qid := by
          intro he
          rw [he, hq0] at hl2
          injection hl2 with hl2
          rw [hl2] at hq0skt
          rw [hq0skt] at hsk2
          exact Option.noConfusion hsk2
        refine ⟨q2, ?_, hsk2, hid2e⟩
        rw [attachQ_queries, lookupQ_setQuerySkt_other _ _ _ _ _ hne]
        exact hl2
    · rw [getD_set_other _ _ _ _ _ (fun he => hcase he.symm)] at hcon
      obtain ⟨q2, hl2, hsk2, hid2e⟩ :=
        slotBack_elim w si2 id2 qid2 (hback si2 hsi2 id2 hid2) hcon
      have hne : qid2 ≠ qid := by
        intro he
        rw [he, hq0] at hl2
        injection hl2 with hl2
        rw [hl2] at hq0skt
        rw [hq0skt] at hsk2
        exact Option.noConfusion hsk2
      refine ⟨q2, ?_, hsk2, hid2e⟩
      rw [attachQ_queries, lookupQ_setQuerySkt_other _ _ _ _ _ hne]
      exact hl2
  · -- per-socket counters
    intro s2 hs2
    rw [attachQ_skts] at hs2
    rcases mem_of_mem_set _ _ _ _ hs2 with h2 | h2
    · subst h2
      constructor
      · show ((w.skts.getD si sktDefault).slots.set id (some qid)).length = 256
        rw [List.length_set]
        exact hslen
      · show (w.skts.getD si sktDefault).queries_count + 1
          = ((w.skts.getD si sktDefault).slots.set id (some qid)).countP Option.isSome
        have hcnt : (w.skts.getD si sktDefault).queries_count
            = occ (w.skts.getD si sktDefault) := hsok.2
        unfold occ at hcnt
        omega
    · exact hok s2 h2
  · -- pool counter
    rw [attachQ_pool, attachQ_skts]
    have hsum := sum_map_set_add occ w.skts si
      ⟨(w.skts.getD si sktDefault).slots.set id (some qid),
        (w.skts.getD si sktDefault).queries_count + 1,
        if auto then id + 1 else (w.skts.getD si sktDefault).queries_index⟩
      sktDefault hsi
    have hocc : occ ⟨(w.skts.getD si sktDefault).slots.set id (some qid),
        (w.skts.getD si sktDefault).queries_count + 1,
        if auto then id + 1 else (w.skts.getD si sktDefault).queries_index⟩
      = occ (w.skts.getD si sktDefault) + 1 := by
      show ((w.skts.getD si sktDefault).slots.set id (some qid)).countP Option.isSome
        = (w.skts.getD si sktDefault).slots.countP Option.isSome + 1
      omega
    rw [hocc] at hsum
    omega

/-- Removing the last socket of the vector preserves the invariant when
that socket has no occupied slot (the shrink step of unlink_skt). -/
theorem drop_empty_tail_invariant (w2 : WorkerM) (si : Nat)
    (hinv2 : invariant w2) (hlast : si + 1 = w2.skts.length)
    (hocc0 : occ (w2.skts.getD si sktDefault) = 0) :
    invariant ⟨w2.skts.take si, w2.pool_queries_count, w2.queries⟩ := by
  obtain ⟨hnd, hlink, hback, hok, hpool⟩ := hinv2
  have hzero : ∀ x ∈ (w2.skts.getD si sktDefault).slots, ¬ (Option.isSome x = true) :=
    List.countP_eq_zero.mp hocc0
  have hsok := hok (w2.skts.getD si sktDefault) (getD_mem _ _ _ (by omega))
  have hslen : (w2.skts.getD si sktDefault).slots.length = 256 := hsok.1
  have htklen : (w2.skts.take si).length = si := by
    rw [List.length_take]
    omega
  refine ⟨hnd, ?_, ?_, ?_, ?_⟩
  · intro p hp
    apply queryLinked_intro
    intro sj hsj
    obtain ⟨h1, h2, h3⟩ := queryLinked_elim w2 p.1 p.2 sj (hlink p hp) hsj
    have hsj2 : sj ≠ si := by
      intro he
      subst he
      have hmem := getD_mem (w2.skts.getD sj sktDefault).slots p.2.query_id none (by omega)
      rw [h3] at hmem
      exact hzero _ hmem rfl
    have hsjlt : sj < si := by omega
    refine ⟨by simpa [htklen] using hsjlt, h2, ?_⟩
    show ((w2.skts.take si).getD sj sktDefault).slots.getD p.2.query_id none = some p.1
    rw [getD_take_lt _ _ _ _ hsjlt]
    exact h3
  · intro si2 hsi2 id2 hid2
    have hsi2b : si2 < si := by
      have : si2 < (w2.skts.take si).length := hsi2
      omega
    apply slotBack_intro
    intro qid2 hcon
    have hcon2 : (w2.skts.getD si2 sktDefault).slots.getD id2 none = some qid2 := by
      have hc3 : ((w2.skts.take si).getD si2 sktDefault).slots.getD id2 none = some qid2 :=
        hcon
      rw [getD_take_lt _ _ _ _ hsi2b] at hc3
      exact hc3
    exact slotBack_elim w2 si2 id2 qid2 (hback si2 (by omega) id2 hid2) hcon2
  · intro s3 hs3
    exact hok s3 (List.take_subset si w2.skts hs3)
  · show w2.pool_queries_count = ((w2.skts.take si).map occ).sum
    have hsum := sum_map_take_last occ w2.skts si sktDefault hlast
    rw [hocc0] at hsum
    omega

/-- Detaching a linked query (without the shrink step) preserves the
invariant. -/
theorem detach_keep_invariant (w : WorkerM) (qid si : Nat) (q : QueryM)
    (hinv : invariant w)
    (hl : lookupQ w.queries qid = some q) (hsk : q.skt = some si) :
    invariant ⟨w.skts.set si (sktClear (w.skts.getD si sktDefault) q.query_id),
      w.pool_queries_count - 1, setQuerySkt w.queries qid none q.query_id⟩ := by
  obtain ⟨hnd, hlink, hback, hok, hpool⟩ := hinv
  have hmem : (qid, q) ∈ w.queries := lookupQ_mem _ _ _ hl
  obtain ⟨hsilen, hidlt, hslot⟩ := queryLinked_elim w qid q si (hlink _ hmem) hsk
  have hsok := hok (w.skts.getD si sktDefault) (getD_mem _ _ _ hsilen)
  have hslen : (w.skts.getD si sktDefault).slots.length = 256 := hsok.1
  have hcnt : (w.skts.getD si sktDefault).queries_count
      = occ (w.skts.getD si sktDefault) := hsok.2
  have hidlen : q.query_id < (w.skts.getD si sktDefault).slots.length := by omega
  have hcp := countP_set_add Option.isSome (w.skts.getD si sktDefault).slots q.query_id
    (none : Option Nat) none hidlen
  rw [hslot] at hcp
  simp only [Option.isSome_none, Option.isSome_some, Bool.false_eq_true,
    if_false, if_true] at hcp
  refine ⟨?_, ?_, ?_, ?_, ?_⟩
  · show ((setQuerySkt w.queries qid none q.query_id).map Prod.fst).Nodup
    rw [map_fst_setQuerySkt]
    exact hnd
  · intro p2 hp2
    have hp2b : p2 ∈ setQuerySkt w.queries qid none q.query_id := hp2
    obtain ⟨p, hp, hpe⟩ := mem_setQuerySkt _ _ _ _ _ hp2b
    rcases p with ⟨pid, pq⟩
    by_cases hcase : pid = qid
    · simp only at hpe
      rw [if_pos hcase] at hpe
      subst hpe
      apply queryLinked_intro
      intro sj hsj
      exact Option.noConfusion (show (none : Option Nat) = some sj from hsj)
    · simp only at hpe
      rw [if_neg hcase] at hpe
      subst hpe
      apply queryLinked_intro
      intro sj hsj
      obtain ⟨h1, h2, h3⟩ := queryLinked_elim w pid pq sj (hlink (pid, pq) hp) hsj
      refine ⟨?_, h2, ?_⟩
      · show sj < (w.skts.set si (sktClear (w.skts.getD si sktDefault) q.query_id)).length
        rw [List.length_set]
        exact h1
      · by_cases hsj2 : sj = si
        · subst hsj2
          show (((w.skts.set sj (sktClear (w.skts.getD sj sktDefault) q.query_id)).getD sj
            sktDefault).slots).getD pq.query_id none = some pid
          rw [getD_set_same w.skts sj (sktClear (w.skts.getD sj sktDefault) q.query_id)
            sktDefault hsilen]
          show ((w.skts.getD sj sktDefault).slots.set q.query_id none).getD
            pq.query_id none = some pid
          have hne : pq.query_id ≠ q.query_id := by
            intro he
            rw [he] at h3
            rw [h3] at hslot
            injection hslot with hslot
            exact hcase hslot
          rw [getD_set_other _ _ _ _ _ (fun he => hne he.symm)]
          exact h3
        · show (((w.skts.set si (sktClear (w.skts.getD si sktDefault) q.query_id)).getD sj
            sktDefault).slots).getD pq.query_id none = some pid
          rw [getD_set_other w.skts si sj (sktClear (w.skts.getD si sktDefault) q.query_id)
            sktDefault (fun he => hsj2 he.symm)]
          exact h3
  · intro si2 hsi2 id2 hid2
    have hsi2b : si2 < w.skts.length := by
      have hx : si2 < (w.skts.set si (sktClear (w.skts.getD si sktDefault) q.query_id)).length :=
        hsi2
      rw [List.length_set] at hx
      exact hx
    apply slotBack_intro
    intro qid2 hcon
    by_cases hcase : si2 = si
    · subst hcase
      have hcon2 : ((w.skts.getD si2 sktDefault).slots.set q.query_id none).getD id2 none
          = some qid2 := by
        have hc3 : (((w.skts.set si2 (sktClear (w.skts.getD si2 sktDefault)
            q.query_id)).getD si2 sktDefault).slots).getD id2 none = some qid2 := hcon
        rw [getD_set_same w.skts si2 (sktClear (w.skts.getD si2 sktDefault) q.query_id)
          sktDefault hsilen] at hc3
        exact hc3
      by_cases hcase2 : id2 = q.query_id
      · subst hcase2
        rw [getD_set_same (w.skts.getD si2 sktDefault).slots q.query_id (none : Option Nat)
          none (by omega)] at hcon2
        exact Option.noConfusion hcon2
      · rw [getD_set_other _ _ _ _ _ (fun he => hcase2 he.symm)] at hcon2
        obtain ⟨q2, hl2, hsk2, hid2e⟩ :=
          slotBack_elim w si2 id2 qid2 (hback si2 hsi2b id2 hid2) hcon2
        have hne : qid2 ≠ qid := by
          intro he
          rw [he, hl] at hl2
          injection hl2 with hl2
          rw [← hl2] at hid2e
          rw [← hid2e] at hcase2
          exact hcase2 rfl
        refine ⟨q2, ?_, hsk2, hid2e⟩
        show lookupQ (setQuerySkt w.queries qid none q.query_id) qid2 = some q2
        rw [lookupQ_setQuerySkt_other _ _ _ _ _ hne]
        exact hl2
    · have hcon2 : (w.skts.getD si2 sktDefault).slots.getD id2 none = some qid2 := by
        have hc3 : (((w.skts.set si (sktClear (w.skts.getD si sktDefault)
            q.query_id)).getD si2 sktDefault).slots).getD id2 none = some qid2 := hcon
        rw [getD_set_other w.skts si si2 (sktClear (w.skts.getD si sktDefault) q.query_id)
          sktDefault (fun he => hcase he.symm)] at hc3
        exact hc3
      obtain ⟨q2, hl2, hsk2, hid2e⟩ :=
        slotBack_elim w si2 id2 qid2 (hback si2 hsi2b id2 hid2) hcon2
      have hne : qid2 ≠ qid := by
        intro he
        rw [he, hl] at hl2
        injection hl2 with hl2
        rw [← hl2] at hsk2
        rw [hsk] at hsk2
        injection hsk2 with hsk2
        exact hcase hsk2.symm
      refine ⟨q2, ?_, hsk2, hid2e⟩
      show lookupQ (setQuerySkt w.queries qid none q.query_id) qid2 = some q2
      rw [lookupQ_setQuerySkt_other _ _ _ _ _ hne]
      exact hl2
  · intro s3 hs3
    have hs3b : s3 ∈ w.skts.set si (sktClear (w.skts.getD si sktDefault) q.query_id) := hs3
    rcases mem_of_mem_set _ _ _ _ hs3b with h2 | h2
    · subst h2
      constructor
      · show ((w.skts.getD si sktDefault).slots.set q.query_id none).length = 256
        rw [List.length_set]
        exact hslen
      · show (w.skts.getD si sktDefault).queries_count - 1
          = ((w.skts.getD si sktDefault).slots.set q.query_id none).countP Option.isSome
        unfold occ at hcnt
        omega
    · exact hok s3 h2
  · show w.pool_queries_count - 1
      = ((w.skts.set si (sktClear (w.skts.getD si sktDefault) q.query_id)).map occ).sum
    have hsum := sum_map_set_add occ w.skts si
      (sktClear (w.skts.getD si sktDefault) q.query_id) sktDefault hsilen
    have hocc2 : occ (sktClear (w.skts.getD si sktDefault) q.query_id)
        = occ (w.skts.getD si sktDefault) - 1 := by
      show ((w.skts.getD si sktDefault).slots.set q.query_id none).countP Option.isSome
        = (w.skts.getD si sktDefault).slots.countP Option.isSome - 1
      omega
    have hocc1 : 1 ≤ occ (w.skts.getD si sktDefault) := by
      show 1 ≤ (w.skts.getD si sktDefault).slots.countP Option.isSome
      omega
    have hmemocc : occ (w.skts.getD si sktDefault) ≤ (w.skts.map occ).sum := by
      have hminmem : occ (w.skts.getD si sktDefault) ∈ w.skts.map occ :=
        List.mem_map_of_mem occ (getD_mem _ _ _ hsilen)
      exact List.single_le_sum (fun x _ => Nat.zero_le x) _ hminmem
    omega

/-- radius_client_query_unlink_skt preserves the slot invariant. -/
theorem detach_preserves (w : WorkerM) (qid smin : Nat) (hinv : invariant w) :
    invariant (detachQ w qid smin) := by
  unfold detachQ
  rcases hl : lookupQ w.queries qid with _ | q
  · exact hinv
  show invariant (match q.skt with
    | none => w
    | some si =>
      let s2 := sktClear (w.skts.getD si sktDefault) q.query_id
      let skts2 := w.skts.set si s2
      let queries2 := setQuerySkt w.queries qid none q.query_id
      if s2.queries_count = 0 ∧ smin < skts2.length ∧ si + 1 = skts2.length then
        ⟨skts2.take si, w.pool_queries_count - 1, queries2⟩
      else ⟨skts2, w.pool_queries_count - 1, queries2⟩)
  rcases hsk : q.skt with _ | si
  · exact hinv
  dsimp only
  split_ifs with hcond
  · have hkeep := detach_keep_invariant w qid si q hinv hl hsk
    have hc2 : (sktClear (w.skts.getD si sktDefault) q.query_id).queries_count = 0 ∧
        smin < (w.skts.set si (sktClear (w.skts.getD si sktDefault) q.query_id)).length ∧
        si + 1 = (w.skts.set si (sktClear (w.skts.getD si sktDefault) q.query_id)).length :=
      hcond
    have hsilen : si < w.skts.length := by
      have hx := hc2.2.2
      rw [List.length_set] at hx
      omega
    have hgd : (w.skts.set si (sktClear (w.skts.getD si sktDefault) q.query_id)).getD si
        sktDefault = sktClear (w.skts.getD si sktDefault) q.query_id :=
      getD_set_same w.skts si (sktClear (w.skts.getD si sktDefault) q.query_id)
        sktDefault hsilen
    have hS2mem : sktClear (w.skts.getD si sktDefault) q.query_id ∈
        w.skts.set si (sktClear (w.skts.getD si sktDefault) q.query_id) := by
      have hm := getD_mem (w.skts.set si (sktClear (w.skts.getD si sktDefault) q.query_id))
        si sktDefault (by rw [List.length_set]; exact hsilen)
      rw [hgd] at hm
      exact hm
    have hS2ok := hkeep.2.2.2.1 (sktClear (w.skts.getD si sktDefault) q.query_id) hS2mem
    have hocc0 : occ (sktClear (w.skts.getD si sktDefault) q.query_id) = 0 := by
      have hx := hS2ok.2
      omega
    have hdrop := drop_empty_tail_invariant
      ⟨w.skts.set si (sktClear (w.skts.getD si sktDefault) q.query_id),
        w.pool_queries_count - 1, setQuerySkt w.queries qid none q.query_id⟩ si hkeep
      hc2.2.2 (by rw [show (WorkerM.mk (w.skts.set si (sktClear (w.skts.getD si sktDefault)
        q.query_id)) (w.pool_queries_count - 1) (setQuerySkt w.queries qid none
        q.query_id)).skts = w.skts.set si (sktClear (w.skts.getD si sktDefault) q.query_id)
        from rfl, hgd]; exact hocc0)
    exact hdrop
  · exact detach_keep_invariant w qid si q hinv hl hsk

/-- Claim C2: the attach step of send_new (linking a detached live query
into a free slot, lines 868-881) and radius_client_query_unlink_skt
(lines 655-675, including the tail-socket shrink through
radius_client_socket_free) preserve the slot invariant: every query with a
socket back-reference is held by exactly that socket at its packet id,
every occupied slot points back at a live query with matching
back-reference, and the per-socket and per-pool occupancy counters equal
the numbers of occupied slots.  The attach hypotheses mirror the call
site: the query is live and detached, the socket index is valid and the
chosen slot is free. -/
theorem C2_slot_invariant_preserved (w : WorkerM) (qid si id smin : Nat) (auto : Bool)
    (hinv : invariant w) :
    ((∃ q0, lookupQ w.queries qid = some q0 ∧ q0.skt = none) →
      si < w.skts.length → id < 256 →
      (w.skts.getD si sktDefault).slots.getD id none = none →
      invariant (attachQ w qid si id auto)) ∧
    invariant (detachQ w qid smin) :=
  ⟨fun hq hsi hid hfree => attach_preserves w qid si id auto hinv hq hsi hid hfree,
    detach_preserves w qid smin hinv⟩

theorem invariant_witness_state :
    invariant ⟨[⟨List.replicate 256 none, 0, 0⟩], 0, [(7, ⟨none, 0⟩)]⟩ := by
  refine ⟨by simp, ?_, ?_, ?_, ?_⟩
  · intro p hp
    simp only [List.mem_singleton] at hp
    subst hp
    apply queryLinked_intro
    intro sj hsj
    exact Option.noConfusion (show (none : Option Nat) = some sj from hsj)
  · intro si2 hsi2 id2 hid2
    apply slotBack_intro
    intro qid2 hcon
    have hsi0 : si2 = 0 := by
      have hx : si2 < 1 := hsi2
      omega
    subst hsi0
    have hcon2 : (List.replicate 256 (none : Option Nat)).getD id2 none = some qid2 := hcon
    rw [getD_replicate_lt 256 id2 (none : Option Nat) none hid2] at hcon2
    exact Option.noConfusion hcon2
  · intro s3 hs3
    simp only [List.mem_singleton] at hs3
    subst hs3
    have hz : (List.replicate 256 (none : Option Nat)).countP Option.isSome = 0 :=
      List.countP_eq_zero.mpr (fun x hx => by rw [List.eq_of_mem_replicate hx]; simp)
    constructor
    · show (List.replicate 256 (none : Option Nat)).length = 256
      rw [List.length_replicate]
    · show 0 = (List.replicate 256 (none : Option Nat)).countP Option.isSome
      omega
  · have hz : (List.replicate 256 (none : Option Nat)).countP Option.isSome = 0 :=
      List.countP_eq_zero.mpr (fun x hx => by rw [List.eq_of_mem_replicate hx]; simp)
    show 0 = ([⟨List.replicate 256 none, 0, 0⟩].map occ).sum
    simp only [List.map_cons, List.map_nil, List.sum_cons, List.sum_nil]
    show 0 = (List.replicate 256 (none : Option Nat)).countP Option.isSome + 0
    omega

theorem C2_slot_invariant_preserved_witness :
    invariant (detachQ ⟨[⟨List.replicate 256 none, 0, 0⟩], 0, [(7, ⟨none, 0⟩)]⟩ 7 1) :=
  (C2_slot_invariant_preserved ⟨[⟨List.replicate 256 none, 0, 0⟩], 0, [(7, ⟨none, 0⟩)]⟩
    7 0 3 1 true invariant_witness_state).2

theorem findFreeSegGo_some (slots : List (Option Nat)) :
    ∀ n s q, findFreeSegGo slots s n = some q →
      s ≤ q ∧ q < s + n ∧ slots.getD q none = none ∧
      ∀ r, s ≤ r → r < q → (slots.getD r none).isSome = true := by
  intro n
  induction n with
  | zero =>
    intro s q h
    exact Option.noConfusion h
  | succ m ih =>
    intro s q h
    unfold findFreeSegGo at h
    split_ifs at h with hocc
    · obtain ⟨h1, h2, h3, h4⟩ := ih (s + 1) q h
      refine ⟨by omega, by omega, h3, ?_⟩
      intro r hr1 hr2
      rcases Nat.eq_or_lt_of_le hr1 with he | hlt
      · rw [← he]
        exact hocc
      · exact h4 r (by omega) hr2
    · injection h with h
      subst h
      refine ⟨Nat.le_refl _, by omega, ?_, ?_⟩
      · rcases hx : slots.getD s none with _ | v
        · rfl
        · rw [hx] at hocc
          exact absurd rfl hocc
      · intro r hr1 hr2
        omega

theorem findFreeSegGo_none (slots : List (Option Nat)) :
    ∀ n s, findFreeSegGo slots s n = none →
      ∀ r, s ≤ r → r < s + n → (slots.getD r none).isSome = true := by
  intro n
  induction n with
  | zero =>
    intro s _ r h1 h2
    omega
  | succ m ih =>
    intro s h r h1 h2
    unfold findFreeSegGo at h
    split_ifs at h with hocc
    · rcases Nat.eq_or_lt_of_le h1 with he | hlt
      · rw [← he]
        exact hocc
      · exact ih (s + 1) h r (by omega) (by omega)

theorem findFreeSeg_some (slots : List (Option Nat)) (s e q : Nat)
    (h : findFreeSeg slots s e = some q) :
    s ≤ q ∧ q < e ∧ slots.getD q none = none ∧
    ∀ r, s ≤ r → r < q → (slots.getD r none).isSome = true := by
  unfold findFreeSeg at h
  obtain ⟨h1, h2, h3, h4⟩ := findFreeSegGo_some slots (e - s) s q h
  exact ⟨h1, by omega, h3, h4⟩

theorem findFreeSeg_none (slots : List (Option Nat)) (s e : Nat)
    (h : findFreeSeg slots s e = none) :
    ∀ r, s ≤ r → r < e → (slots.getD r none).isSome = true := by
  unfold findFreeSeg at h
  intro r h1 h2
  exact findFreeSegGo_none slots (e - s) s h r h1 (by omega)

theorem poolFindAuto_spec :
    ∀ (l : List SktM), (∀ s2 ∈ l, s2.queries_index ≤ 256) →
      ∀ (i si q : Nat), poolFindAuto l i = some (si, q) →
      i ≤ si ∧ si - i < l.length ∧
      (l.getD (si - i) sktDefault).queries_count ≠ 256 ∧ q < 256 ∧
      (l.getD (si - i) sktDefault).slots.getD q none = none ∧
      probeOrdered (l.getD (si - i) sktDefault) q := by
  intro l
  induction l with
  | nil =>
    intro _ i si q h
    exact Option.noConfusion h
  | cons s rest ih =>
    intro hwf i si q h
    have hwfrest : ∀ s2 ∈ rest, s2.queries_index ≤ 256 :=
      fun s2 hs2 => hwf s2 (List.mem_cons_of_mem s hs2)
    have hwfs : s.queries_index ≤ 256 := hwf s (List.mem_cons_self s rest)
    unfold poolFindAuto at h
    split_ifs at h with hfull
    · obtain ⟨h1, h2, h3, h4, h5, h6⟩ := ih hwfrest (i + 1) si q h
      have hsub : si - i = (si - (i + 1)) + 1 := by omega
      refine ⟨by omega, ?_, ?_, h4, ?_, ?_⟩
      · show si - i < rest.length + 1
        omega
      · rw [hsub, List.getD_cons_succ]
        exact h3
      · rw [hsub, List.getD_cons_succ]
        exact h5
      · rw [hsub, List.getD_cons_succ]
        exact h6
    · rcases hf1 : findFreeSeg s.slots s.queries_index 256 with _ | q1
      · rw [hf1] at h
        rcases hf2 : findFreeSeg s.slots 0 s.queries_index with _ | q2
        · rw [hf2] at h
          obtain ⟨h1, h2, h3, h4, h5, h6⟩ := ih hwfrest (i + 1) si q h
          have hsub : si - i = (si - (i + 1)) + 1 := by omega
          refine ⟨by omega, ?_, ?_, h4, ?_, ?_⟩
          · show si - i < rest.length + 1
            omega
          · rw [hsub, List.getD_cons_succ]
            exact h3
          · rw [hsub, List.getD_cons_succ]
            exact h5
          · rw [hsub, List.getD_cons_succ]
            exact h6
        · rw [hf2] at h
          injection h with h
          rw [Prod.mk.injEq] at h
          obtain ⟨hi, hq⟩ := h
          subst hi
          subst hq
          rw [Nat.sub_self]
          obtain ⟨g1, g2, g3, g4⟩ := findFreeSeg_some s.slots 0 s.queries_index q2 hf2
          have gup := findFreeSeg_none s.slots s.queries_index 256 hf1
          refine ⟨Nat.le_refl _, by show 0 < rest.length + 1; omega, hfull, by omega,
            g3, ?_⟩
          right
      -- wait: getD 0 (s :: rest) = s definitionally
          refine ⟨g2, ?_, ?_⟩
          · intro r hr1 hr2
            exact gup r hr1 hr2
          · intro r hr2
            exact g4 r (Nat.zero_le r) hr2
      · rw [hf1] at h
        injection h with h
        rw [Prod.mk.injEq] at h
        obtain ⟨hi, hq⟩ := h
        subst hi
        subst hq
        rw [Nat.sub_self]
        obtain ⟨g1, g2, g3, g4⟩ := findFreeSeg_some s.slots s.queries_index 256 q1 hf1
        refine ⟨Nat.le_refl _, by show 0 < rest.length + 1; omega, hfull, g2, g3, ?_⟩
        left
        exact ⟨g1, g4⟩

/-- Claim C7: in auto-id mode the slot search considers only sockets whose
occupied-slot count is below 256; the allocated slot is free and respects
the two-segment probe order (from queries_index up to 255, then from 0 up
to but excluding the hint); and on success the attach step sets the
queries_index of the socket to the allocated id + 1 and overwrites the id byte
at offset 1 of the caller packet buffer with the allocated slot index.
The two well-formedness hypotheses (counts and hints at most 256) are what
the slot invariant maintains on every reachable pool. -/
theorem C7_auto_id_allocation (w : WorkerM) (buf : List Nat) (qid si q : Nat)
    (h : poolFindAuto w.skts 0 = some (si, q))
    (hwfc : ∀ s2 ∈ w.skts, s2.queries_count ≤ 256)
    (hwfi : ∀ s2 ∈ w.skts, s2.queries_index ≤ 256)
    (hbuf : 2 ≤ buf.length) :
    si < w.skts.length ∧
    (w.skts.getD si sktDefault).queries_count < 256 ∧
    q < 256 ∧
    (w.skts.getD si sktDefault).slots.getD q none = none ∧
    probeOrdered (w.skts.getD si sktDefault) q ∧
    ((attachQ w qid si q true).skts.getD si sktDefault).queries_index = q + 1 ∧
    (autoAttachBuf buf q).getD 1 0 = q := by
  obtain ⟨h1, h2, h3, h4, h5, h6⟩ := poolFindAuto_spec w.skts hwfi 0 si q h
  rw [Nat.sub_zero] at h2 h3 h5 h6
  refine ⟨h2, ?_, h4, h5, h6, ?_, ?_⟩
  · have hc := hwfc (w.skts.getD si sktDefault) (getD_mem _ _ _ h2)
    omega
  · rw [attachQ_skts, getD_set_same w.skts si
      ⟨(w.skts.getD si sktDefault).slots.set q (some qid),
        (w.skts.getD si sktDefault).queries_count + 1,
        if true then q + 1 else (w.skts.getD si sktDefault).queries_index⟩ sktDefault h2]
    rfl
  · show (buf.set 1 q).getD 1 0 = q
    exact getD_set_same buf 1 q 0 (by omega)

theorem C7_auto_id_allocation_witness :
    0 < ([⟨List.replicate 256 none, 0, 0⟩] : List SktM).length ∧
    (([⟨List.replicate 256 none, 0, 0⟩] : List SktM).getD 0 sktDefault).queries_count
      < 256 ∧
    0 < 256 ∧
    (([⟨List.replicate 256 none, 0, 0⟩] : List SktM).getD 0 sktDefault).slots.getD 0 none
      = none ∧
    probeOrdered (([⟨List.replicate 256 none, 0, 0⟩] : List SktM).getD 0 sktDefault) 0 ∧
    ((attachQ ⟨[⟨List.replicate 256 none, 0, 0⟩], 0, []⟩ 5 0 0 true).skts.getD 0
      sktDefault).queries_index = 0 + 1 ∧
    (autoAttachBuf [9, 9] 0).getD 1 0 = 0 :=
  C7_auto_id_allocation ⟨[⟨List.replicate 256 none, 0, 0⟩], 0, []⟩ [9, 9] 5 0 0 rfl
    (by decide) (by decide) (by decide)

end RadiusClient
